import Mathlib

/-!
Verification of the Tetris game-state engine (`src/hooks/useTetris.ts`).

The definitions below are a shallow embedding of the TypeScript source.
Functions defined in `useTetris.ts` (`saveHighScore`, `getHighScores`,
`getPoints`, `addShapeToBoard`, `commitPosition`, `startGame`) are
translated from the source.  The repository snapshot does not contain
`useTetrisBoard.ts` nor `types.ts` (only their callers and tests are
present), so the helpers they export (`hasCollisions`, `getEmptyBoard`,
`BOARD_HEIGHT`, the shape catalog) are modelled from the spec, as marked
on each such definition.
-/

/-- The enumeration of tetromino kinds (`Block` in `types.ts`; modelled
from the spec: one kind per shape in the Shape Catalog). -/
inductive Block
  | I
  | J
  | L
  | O
  | S
  | T
  | Z
deriving DecidableEq

/-- A board cell is either `EmptyCell.Empty` or holds a block kind. -/
inductive Cell
  | empty
  | filled (b : Block)
deriving DecidableEq

/-- `true` iff the cell is the empty cell. -/
def Cell.isEmpty : Cell → Bool
  | Cell.empty => true
  | Cell.filled _ => false

/-- A shape matrix: a 2D boolean grid (`BlockShape` in `types.ts`). -/
abbrev BlockShape : Type := List (List Bool)

/-- The board: rows (top to bottom) of cells (`BoardShape` in `types.ts`). -/
abbrev Board : Type := List (List Cell)

/-- Modelled from the spec: canonical board height H = 20
(`BOARD_HEIGHT` exported by the missing `useTetrisBoard.ts`). -/
def BOARD_HEIGHT : Nat := 20

/-- Modelled from the spec: canonical board width W = 10. -/
def BOARD_WIDTH : Nat := 10

/-- Modelled from the spec: `getEmptyBoard(n)` produces `n` rows of `W`
Empty cells (the missing `useTetrisBoard.ts` helper; the source calls it
as `getEmptyBoard(numCleared)` to build the rows prepended on commit). -/
def getEmptyBoard (n : Nat) : Board :=
  List.replicate n (List.replicate BOARD_WIDTH Cell.empty)

/-- The cell of `bd` at row `r`, column `c` (empty when out of range;
all uses below stay in range on height-H boards). -/
def cellAt (bd : Board) (r c : Nat) : Cell :=
  (bd.getD r []).getD c Cell.empty

/-- Collision of one shape row placed at board row `r`, starting column `c`. -/
def rowCollides (bd : Board) (cells : List Bool) (r c : Nat) : Bool :=
  match cells with
  | [] => false
  | b :: rest =>
    (b && (decide (BOARD_HEIGHT ≤ r) || decide (BOARD_WIDTH ≤ c) ||
           !(cellAt bd r c).isEmpty))
    || rowCollides bd rest r (c + 1)

/-- Modelled from the spec: `hasCollision(board, shape, row, col)` is true
iff some occupied sub-cell of `shape` at offset `(row, col)` falls outside
the board bounds or lands on a non-Empty cell (the missing
`useTetrisBoard.ts` export `hasCollisions`; offsets are naturals here, so
the spec's `row < 0` / `col < 0` cases do not arise). -/
def hasCollisions (bd : Board) (shape : List (List Bool)) (row col : Nat) : Bool :=
  match shape with
  | [] => false
  | cells :: rest => rowCollides bd cells row col || hasCollisions bd rest (row + 1) col

/- ## High-score ledger (`saveHighScore` / `getHighScores`) -/

/-- Descending insertion: place `a` after every element that is ≥ `a`
(the position `Array.prototype.sort` with comparator `(a, b) => b - a`
gives to a pushed element). -/
def insertDesc (a : Int) : List Int → List Int
  | [] => [a]
  | b :: bs => if a ≤ b then b :: insertDesc a bs else a :: b :: bs

/-- Descending sort by repeated insertion; extensionally the result of
`scores.sort((a, b) => b - a)` (any two descending-sorted permutations of
a list of integers are equal). -/
def sortDesc (l : List Int) : List Int :=
  l.foldr insertDesc []

/-- The pure core of `saveHighScore` (`useTetris.ts` lines 9–16):
append the score to the existing ones, sort descending, keep the top
`MAX_HIGH_SCORES = 10`. -/
def saveHighScore (existing : List Int) (score : Int) : List Int :=
  (sortDesc (existing ++ [score])).take 10

/-- A JSON value, as relevant to the ledger: the persisted text parses to
a number, a string, a boolean, `null`, or an array of JSON values. -/
inductive JsonValue
  | num (n : Int)
  | str
  | bool (b : Bool)
  | null
  | arr (items : List JsonValue)

/-- The state of the `"highScores"` key of `localStorage`: absent,
present but not valid JSON (so `JSON.parse` throws), or valid JSON. -/
inductive Stored
  | absent
  | corrupt (raw : Nat)
  | json (v : JsonValue)

/-- `items` as a list of numbers, when every element is a number
(the source's `scores.every(score => typeof score === 'number')`). -/
def numListOf : List JsonValue → Option (List Int)
  | [] => some []
  | JsonValue.num n :: rest =>
    match numListOf rest with
    | some xs => some (n :: xs)
    | none => none
  | _ :: _ => none

/-- `v` as an array of numbers, when it is one (the source's
`Array.isArray(scores) && scores.every(...)` validation). -/
def asNumberArray : JsonValue → Option (List Int)
  | JsonValue.arr items => numListOf items
  | _ => none

/-- `getHighScores` (`useTetris.ts` lines 19–36) as a function of the
persisted `"highScores"` value: absent storage parses as `'[]'`; a parse
failure is caught and yields `[]`; a parsed value that is not an array of
numbers yields `[]` (the source also clears the key, an effect on storage
not modelled here); an array of numbers is sorted descending and sliced
to the top 10. -/
def getHighScores : Stored → List Int
  | Stored.absent => (sortDesc []).take 10
  | Stored.corrupt _ => []
  | Stored.json v =>
    match asNumberArray v with
    | some scores => (sortDesc scores).take 10
    | none => []

/-- `JSON.stringify` of a score list, as the stored JSON value. -/
def jsonOfScores (xs : List Int) : JsonValue :=
  JsonValue.arr (xs.map JsonValue.num)

/-- Failure modes of running `saveHighScore` against storage. -/
inductive JsError
  | parseFailure
  | pushNotAFunction
  | nonNumericCompare
deriving DecidableEq

/-- Running `saveHighScore(score)` (`useTetris.ts` lines 9–16) against the
persisted value: `JSON.parse(getItem ?? '[]')` throws on invalid JSON
(`parseFailure`) before `setItem` is reached, so storage is unchanged;
`.push` on a parsed non-array throws a `TypeError`; a parsed array of
numbers is appended to, sorted descending, sliced to 10 and stored.  An
array containing non-numbers is outside the modelled scope (the
comparator `b - a` then compares via `NaN` and the engine's order is
unspecified); no claim exercises that branch. -/
def saveHighScoreRun (st : Stored) (score : Int) : Except JsError Unit × Stored :=
  match st with
  | Stored.absent => (Except.ok (), Stored.json (jsonOfScores (saveHighScore [] score)))
  | Stored.corrupt raw => (Except.error JsError.parseFailure, Stored.corrupt raw)
  | Stored.json v =>
    match v with
    | JsonValue.arr items =>
      match numListOf items with
      | some xs => (Except.ok (), Stored.json (jsonOfScores (saveHighScore xs score)))
      | none => (Except.error JsError.nonNumericCompare, Stored.json v)
    | _ => (Except.error JsError.pushNotAFunction, Stored.json v)

/-- The sequence `getHighScores` returns after `saveHighScore(score)` ran
against well-formed persisted scores `old`. -/
def afterSave (old : List Int) (score : Int) : List Int :=
  getHighScores (saveHighScoreRun (Stored.json (jsonOfScores old)) score).2

/- ## Sorting lemmas -/

theorem insertDesc_perm (a : Int) (l : List Int) : List.Perm (insertDesc a l) (a :: l) := by
  induction l with
  | nil => simp [insertDesc]
  | cons b bs ih =>
    by_cases h : a ≤ b
    · simp only [insertDesc, if_pos h]
      exact List.Perm.trans (List.Perm.cons b ih) (List.Perm.swap a b bs)
    · simp [insertDesc, if_neg h]

theorem sortDesc_perm (l : List Int) : List.Perm (sortDesc l) l := by
  induction l with
  | nil => simp [sortDesc]
  | cons a l ih =>
    have h1 : List.Perm (insertDesc a (sortDesc l)) (a :: sortDesc l) := insertDesc_perm a _
    exact List.Perm.trans h1 (List.Perm.cons a ih)

theorem insertDesc_pairwise (a : Int) (l : List Int)
    (h : l.Pairwise (fun x y => y ≤ x)) :
    (insertDesc a l).Pairwise (fun x y => y ≤ x) := by
  induction l with
  | nil => simp [insertDesc]
  | cons b bs ih =>
    rcases List.pairwise_cons.mp h with ⟨hb, hbs⟩
    by_cases hab : a ≤ b
    · simp only [insertDesc, if_pos hab]
      refine List.pairwise_cons.mpr ⟨?_, ih hbs⟩
      intro x hx
      have hx' : x ∈ a :: bs := (insertDesc_perm a bs).mem_iff.mp hx
      rcases List.mem_cons.mp hx' with rfl | hx''
      · exact hab
      · exact hb x hx''
    · have hba : b ≤ a := le_of_not_le hab
      simp only [insertDesc, if_neg hab]
      refine List.pairwise_cons.mpr ⟨?_, h⟩
      intro x hx
      rcases List.mem_cons.mp hx with rfl | hx'
      · exact hba
      · exact le_trans (hb x hx') hba

theorem sortDesc_pairwise (l : List Int) :
    (sortDesc l).Pairwise (fun x y => y ≤ x) := by
  induction l with
  | nil => simp [sortDesc]
  | cons a l ih => exact insertDesc_pairwise a (sortDesc l) ih

theorem insertDesc_of_top (a : Int) (l : List Int) (h : ∀ x ∈ l, x ≤ a) :
    insertDesc a l = a :: l := by
  induction l with
  | nil => rfl
  | cons b bs ih =>
    by_cases hab : a ≤ b
    · have hba : b ≤ a := h b (List.mem_cons_self b bs)
      have hb : b = a := le_antisymm hab hba |>.symm
      subst hb
      have ih' : insertDesc b bs = b :: bs := ih (fun x hx => h x (List.mem_cons_of_mem b hx))
      simp [insertDesc, if_pos hab, ih']
    · simp [insertDesc, if_neg hab]

theorem sortDesc_of_sorted (l : List Int) (h : l.Pairwise (fun x y => y ≤ x)) :
    sortDesc l = l := by
  induction l with
  | nil => rfl
  | cons a l ih =>
    rcases List.pairwise_cons.mp h with ⟨ha, hl⟩
    have : sortDesc (a :: l) = insertDesc a (sortDesc l) := rfl
    rw [this, ih hl, insertDesc_of_top a l ha]

theorem mem_take_of_few_above (l : List Int) (a : Int) (n : Nat)
    (hsorted : l.Pairwise (fun x y => y ≤ x)) (hmem : a ∈ l)
    (hcount : l.countP (fun x => decide (a < x)) < n) :
    a ∈ l.take n := by
  induction l generalizing n with
  | nil => cases hmem
  | cons b bs ih =>
    cases n with
    | zero => omega
    | succ m =>
      rcases List.pairwise_cons.mp hsorted with ⟨hb, hbs⟩
      by_cases hab : a = b
      · subst hab
        simp [List.take_succ_cons]
      · have hmem' : a ∈ bs := by
          rcases List.mem_cons.mp hmem with h | h
          · exact absurd h hab
          · exact h
        have hba : a ≤ b := hb a hmem'
        have hlt : a < b := lt_of_le_of_ne hba hab
        have hcount' : bs.countP (fun x => decide (a < x)) < m := by
          have : (b :: bs).countP (fun x => decide (a < x)) =
              bs.countP (fun x => decide (a < x)) + 1 := by
            simp [List.countP_cons, hlt]
          omega
        have := ih m hbs hmem' hcount'
        simp only [List.take_succ_cons]
        exact List.mem_cons_of_mem b this

/- ## Scoring, stamping, and line clearing (`useTetris.ts`) -/

/-- Failure modes of the commit sequence. -/
inductive CommitError
  | unexpectedRowsCleared
  | emptyQueue
deriving DecidableEq

/-- `getPoints` (`useTetris.ts` lines 46–62): the scoring table keyed by
clear count; any other count throws
`new Error('Unexpected number of rows cleared')`. -/
def getPoints : Nat → Except CommitError Nat
  | 0 => Except.ok 0
  | 1 => Except.ok 100
  | 2 => Except.ok 300
  | 3 => Except.ok 500
  | 4 => Except.ok 800
  | _ + 5 => Except.error CommitError.unexpectedRowsCleared

/-- `board[r][c] = b` (in range; out-of-range writes leave the board
unchanged — all source call sites are guarded by collision detection). -/
def setCell (bd : Board) (r c : Nat) (b : Block) : Board :=
  bd.set r ((bd.getD r []).set c (Cell.filled b))

/-- Stamp one shape row: write `b` at board row `r` for every `true`
cell, columns counted from `c` (the inner `row.forEach` of
`addShapeToBoard`). -/
def stampRow (b : Block) (cells : List Bool) (bd : Board) (r c : Nat) : Board :=
  match cells with
  | [] => bd
  | isSet :: rest =>
    stampRow b rest (if isSet then setCell bd r c b else bd) r (c + 1)

/-- Stamp a full shape matrix: row `i` of the matrix goes to board row
`r + i` (the outer `forEach` of `addShapeToBoard`). -/
def stampShape (b : Block) (shape : List (List Bool)) (bd : Board) (r c : Nat) : Board :=
  match shape with
  | [] => bd
  | cells :: rest => stampShape b rest (stampRow b cells bd r c) (r + 1) c

/-- `addShapeToBoard` (`useTetris.ts` lines 77–102): the shape matrix is
first filtered down to its rows that contain an occupied cell
(`.filter((row) => row.some((isSet) => isSet))`), and the `forEach` row
index — an index into the *filtered* list — is added to `droppingRow`. -/
def addShapeToBoard (bd : Board) (b : Block) (shape : List (List Bool)) (row col : Nat) : Board :=
  stampShape b (shape.filter (fun cells => cells.any (fun isSet => isSet))) bd row col

/-- The stamping the spec describes for the claimed equivalence: iterate
*all* shape rows, writing shape cell `(r, c)` to board cell
`(row + r, col + c)` for every occupied cell. -/
def addShapeToBoardAllRows (bd : Board) (b : Block) (shape : List (List Bool)) (row col : Nat) : Board :=
  stampShape b shape bd row col

/-- A row is full iff every cell is non-Empty
(`newBoard[row].every((entry) => entry !== EmptyCell.Empty)`). -/
def isFullRow (cells : List Cell) : Bool :=
  cells.all (fun entry => !entry.isEmpty)

/-- The bottom-to-top clearing loop (`useTetris.ts` lines 172–181):
`for (let row = BOARD_HEIGHT - 1; row >= 0; row--)` — index `n` is
inspected before indices below it; a full row is counted and spliced
out.  `clearRowsAux n bd` runs the loop body for indices
`n-1, n-2, …, 0` and returns `(numCleared, board)`. -/
def clearRowsAux : Nat → Board → Nat × Board
  | 0, bd => (0, bd)
  | n + 1, bd =>
    if isFullRow (bd.getD n []) then
      let p := clearRowsAux n (bd.eraseIdx n)
      (p.1 + 1, p.2)
    else
      clearRowsAux n bd

/-- The whole clearing loop, starting at `BOARD_HEIGHT - 1`. -/
def clearRows (bd : Board) : Nat × Board :=
  clearRowsAux BOARD_HEIGHT bd

/-- Tick speeds (`TickSpeed` enum in `useTetris.ts`). -/
inductive TickSpeed
  | normal
  | sliding
  | fast
deriving DecidableEq

/-- The interval in milliseconds behind each `TickSpeed` value. -/
def TickSpeed.ms : TickSpeed → Nat
  | TickSpeed.normal => 800
  | TickSpeed.sliding => 100
  | TickSpeed.fast => 50

/-- The state `useTetris` holds: the `useState` cells plus the board
store's `{board, droppingRow, droppingColumn, droppingBlock,
droppingShape}`.  `tickSpeed = none` is the `null` speed (loop stopped). -/
structure GameState where
  board : Board
  droppingRow : Nat
  droppingColumn : Nat
  droppingBlock : Block
  droppingShape : List (List Bool)
  score : Nat
  upcomingBlocks : List Block
  isCommitting : Bool
  isPlaying : Bool
  tickSpeed : Option TickSpeed
deriving DecidableEq

/-- The board `commitPosition` stamps the landed piece onto. -/
def stampedOf (st : GameState) : Board :=
  addShapeToBoard st.board st.droppingBlock st.droppingShape st.droppingRow st.droppingColumn

/-- The already-line-cleared board padded back to height H — the board
the spec says the game-over check must run against. -/
def postClearBoard (st : GameState) : Board :=
  getEmptyBoard (clearRows (stampedOf st)).1 ++ (clearRows (stampedOf st)).2

/-- `commitPosition` (`useTetris.ts` lines 150–219) as a state
transformer.  `shapes` is the spawn-shape catalog (`SHAPES[kind].shape`;
the catalog itself lives in the missing `types.ts` and is a parameter
here), and `fresh` stands for the `getRandomBlock()` draw.  The second
component of the result is the score passed to `saveHighScore`, when the
game-over branch ran.  The early branch returns when the piece can still
fall.  Otherwise the piece is stamped, full rows are cleared bottom-up,
`newBlock` is popped off the *end* of the queue and `fresh` is
unshifted onto its front, and the game-over check runs `hasCollisions`
against `st.board` — the pre-commit board (source line 196) — at the
spawn cell (0, 3).  The new piece install at spawn is modelled from the
spec of the board store's `commit` action (missing `useTetrisBoard.ts`). -/
def commitPosition (shapes : Block → List (List Bool)) (fresh : Block) (st : GameState) :
    Except CommitError (GameState × Option Nat) :=
  if !(hasCollisions st.board st.droppingShape (st.droppingRow + 1) st.droppingColumn) then
    Except.ok ({ st with isCommitting := false, tickSpeed := some TickSpeed.normal }, none)
  else
    let cleared := clearRows (stampedOf st)
    match st.upcomingBlocks.getLast? with
    | none => Except.error CommitError.emptyQueue
    | some newBlock =>
      let newUpcoming := fresh :: st.upcomingBlocks.dropLast
      let gameOver := hasCollisions st.board (shapes newBlock) 0 3
      match getPoints cleared.1 with
      | Except.error e => Except.error e
      | Except.ok pts =>
        Except.ok
          ({ st with
              board := getEmptyBoard cleared.1 ++ cleared.2
              droppingRow := 0
              droppingColumn := 3
              droppingBlock := newBlock
              droppingShape := shapes newBlock
              score := st.score + pts
              upcomingBlocks := newUpcoming
              isCommitting := false
              isPlaying := if gameOver then false else st.isPlaying
              tickSpeed := if gameOver then none else some TickSpeed.normal },
            if gameOver then some st.score else none)

/-- `startGame` (`useTetris.ts` lines 128–141): reset the score, seed the
queue with three `getRandomBlock()` draws (`b1`, `b2`, `b3`), clear the
committing flag, start playing at Normal speed.  The board store's
`start` action (missing `useTetrisBoard.ts`) is modelled from the spec:
empty H×W board, new piece of kind `spawnKind` at row 0, column 3. -/
def startGame (b1 b2 b3 spawnKind : Block) (shapes : Block → List (List Bool))
    (st : GameState) : GameState :=
  { st with
      score := 0
      upcomingBlocks := [b1, b2, b3]
      isCommitting := false
      isPlaying := true
      tickSpeed := some TickSpeed.normal
      board := getEmptyBoard BOARD_HEIGHT
      droppingRow := 0
      droppingColumn := 3
      droppingBlock := spawnKind
      droppingShape := shapes spawnKind }

/-- The sequence of kinds consumed from the queue, one commit per
element of the fresh-draw stream `fs`: each commit pops the end of the
queue and unshifts the fresh draw onto its front. -/
def consumeSeq (q : List Block) : List Block → List Block
  | [] => []
  | f :: fs =>
    match q.getLast? with
    | none => []
    | some k => k :: consumeSeq (f :: q.dropLast) fs

/- ## Board lemmas -/

theorem length_setCell (bd : Board) (r c : Nat) (b : Block) :
    (setCell bd r c b).length = bd.length := by
  simp [setCell]

theorem length_stampRow (b : Block) (cells : List Bool) (bd : Board) (r c : Nat) :
    (stampRow b cells bd r c).length = bd.length := by
  induction cells generalizing bd c with
  | nil => rfl
  | cons isSet rest ih =>
    simp only [stampRow]
    rw [ih]
    by_cases h : isSet = true
    · simp [h, length_setCell]
    · simp [h]

theorem length_stampShape (b : Block) (shape : List (List Bool)) (bd : Board) (r c : Nat) :
    (stampShape b shape bd r c).length = bd.length := by
  induction shape generalizing bd r with
  | nil => rfl
  | cons cells rest ih =>
    simp only [stampShape]
    rw [ih, length_stampRow]

theorem length_addShapeToBoard (bd : Board) (b : Block) (shape : List (List Bool)) (row col : Nat) :
    (addShapeToBoard bd b shape row col).length = bd.length := by
  simp [addShapeToBoard, length_stampShape]

/-- The clearing loop over the first `n` rows removes exactly the full
rows among them and counts one per removed row. -/
theorem clearRowsAux_spec (n : Nat) (bd : Board) (h : n ≤ bd.length) :
    clearRowsAux n bd =
      ((bd.take n).countP isFullRow,
       (bd.take n).filter (fun r => !(isFullRow r)) ++ bd.drop n) := by
  induction n generalizing bd with
  | zero => simp [clearRowsAux]
  | succ m ih =>
    have hm : m < bd.length := h
    have hget : bd.getD m [] = bd[m] := List.getD_eq_getElem bd [] hm
    have htake : bd.take (m + 1) = bd.take m ++ [bd[m]] := by
      rw [List.take_succ, List.getElem?_eq_getElem hm]
      rfl
    by_cases hfull : isFullRow bd[m] = true
    · have herase : bd.eraseIdx m = bd.take m ++ bd.drop (m + 1) :=
        List.eraseIdx_eq_take_drop_succ bd m
      have hlen : m ≤ (bd.eraseIdx m).length := by
        rw [herase]
        have h1 : (bd.take m).length = m := List.length_take_of_le (le_of_lt hm)
        simp only [List.length_append, h1]
        omega
      have hrec := ih (bd.eraseIdx m) hlen
      have htake' : (bd.eraseIdx m).take m = bd.take m := by
        rw [herase]
        have h1 : (bd.take m).length = m := List.length_take_of_le (le_of_lt hm)
        rw [List.take_append_of_le_length (le_of_eq h1.symm), List.take_take]
        simp
      have hdrop' : (bd.eraseIdx m).drop m = bd.drop (m + 1) := by
        rw [herase]
        have h1 : (bd.take m).length = m := List.length_take_of_le (le_of_lt hm)
        calc (bd.take m ++ bd.drop (m + 1)).drop m
            = (bd.take m ++ bd.drop (m + 1)).drop (bd.take m).length := by rw [h1]
          _ = bd.drop (m + 1) := List.drop_left _ _
      simp only [clearRowsAux, hget, hfull, if_true, hrec, htake', hdrop']
      rw [Prod.mk.injEq]
      constructor
      · rw [htake, List.countP_append]
        simp [List.countP_cons, hfull]
      · rw [htake, List.filter_append]
        simp [hfull]
    · have hrec := ih bd (le_of_lt hm)
      have hfull' : isFullRow bd[m] = false := by
        cases hb : isFullRow bd[m]
        · rfl
        · exact absurd hb hfull
      have hdrop : bd.drop m = bd[m] :: bd.drop (m + 1) := List.drop_eq_getElem_cons hm
      simp only [clearRowsAux, hget, hfull', if_false, hrec, Bool.false_eq_true]
      rw [Prod.mk.injEq]
      constructor
      · rw [htake, List.countP_append]
        simp [List.countP_cons, hfull']
      · rw [htake, List.filter_append, hdrop]
        simp [hfull']

/-- `clearRows` on a full-height board: the count is the number of full
rows and the result is the board with every full row removed. -/
theorem clearRows_spec (bd : Board) (h : bd.length = BOARD_HEIGHT) :
    clearRows bd = (bd.countP isFullRow, bd.filter (fun r => !(isFullRow r))) := by
  have := clearRowsAux_spec BOARD_HEIGHT bd (le_of_eq h.symm)
  rw [clearRows, this]
  rw [← h, List.take_length, List.drop_length, List.append_nil]

theorem length_getEmptyBoard (n : Nat) : (getEmptyBoard n).length = n := by
  simp [getEmptyBoard]

/-- Removed-count plus kept-count is the total row count. -/
theorem countP_add_length_filter_not (bd : Board) :
    bd.countP isFullRow + (bd.filter (fun r => !(isFullRow r))).length = bd.length := by
  induction bd with
  | nil => rfl
  | cons row rest ih =>
    by_cases h : isFullRow row = true
    · simp [List.countP_cons, List.filter_cons, h]
      omega
    · have h' : isFullRow row = false := by
        cases hb : isFullRow row
        · rfl
        · exact absurd hb h
      simp [List.countP_cons, List.filter_cons, h']
      omega

/- ## Commit-sequence lemmas -/

/-- When the piece can still fall, `commitPosition` only clears the
committing flag and resets the speed. -/
theorem commitPosition_early_eq (shapes : Block → List (List Bool)) (fresh : Block)
    (st : GameState)
    (h : hasCollisions st.board st.droppingShape (st.droppingRow + 1) st.droppingColumn = false) :
    commitPosition shapes fresh st =
      Except.ok ({ st with isCommitting := false, tickSpeed := some TickSpeed.normal }, none) := by
  simp only [commitPosition, h, Bool.not_false, if_true]

/-- Inversion of the landed branch of `commitPosition`: a successful
commit of a landed piece determines the whole result state. -/
theorem commitPosition_landed_inv (shapes : Block → List (List Bool)) (fresh : Block)
    (st st' : GameState) (saved : Option Nat)
    (hland : hasCollisions st.board st.droppingShape (st.droppingRow + 1) st.droppingColumn = true)
    (hok : commitPosition shapes fresh st = Except.ok (st', saved)) :
    ∃ newBlock pts,
      st.upcomingBlocks.getLast? = some newBlock ∧
      getPoints (clearRows (stampedOf st)).1 = Except.ok pts ∧
      st' = { st with
          board := getEmptyBoard (clearRows (stampedOf st)).1 ++ (clearRows (stampedOf st)).2
          droppingRow := 0
          droppingColumn := 3
          droppingBlock := newBlock
          droppingShape := shapes newBlock
          score := st.score + pts
          upcomingBlocks := fresh :: st.upcomingBlocks.dropLast
          isCommitting := false
          isPlaying := if hasCollisions st.board (shapes newBlock) 0 3 then false else st.isPlaying
          tickSpeed := if hasCollisions st.board (shapes newBlock) 0 3 then none
                       else some TickSpeed.normal } ∧
      saved = (if hasCollisions st.board (shapes newBlock) 0 3 then some st.score else none) := by
  simp only [commitPosition, hland, Bool.not_true, Bool.false_eq_true, if_false] at hok
  cases hlast : st.upcomingBlocks.getLast? with
  | none =>
    rw [hlast] at hok
    simp at hok
  | some newBlock =>
    rw [hlast] at hok
    cases hpts : getPoints (clearRows (stampedOf st)).1 with
    | error e =>
      rw [hpts] at hok
      simp at hok
    | ok pts =>
      rw [hpts] at hok
      simp only [Except.ok.injEq, Prod.mk.injEq] at hok
      exact ⟨newBlock, pts, rfl, rfl, hok.1.symm, hok.2.symm⟩

/- ## Ledger lemmas -/

theorem numListOf_map_num (xs : List Int) :
    numListOf (xs.map JsonValue.num) = some xs := by
  induction xs with
  | nil => rfl
  | cons x xs ih => simp [numListOf, ih]

theorem afterSave_eq (old : List Int) (s : Int) :
    afterSave old s = saveHighScore old s := by
  have h1 : saveHighScoreRun (Stored.json (jsonOfScores old)) s =
      (Except.ok (), Stored.json (jsonOfScores (saveHighScore old s))) := by
    simp [saveHighScoreRun, jsonOfScores, numListOf_map_num]
  have h2 : getHighScores (Stored.json (jsonOfScores (saveHighScore old s))) =
      (sortDesc (saveHighScore old s)).take 10 := by
    simp [getHighScores, asNumberArray, jsonOfScores, numListOf_map_num]
  have h3 : sortDesc (saveHighScore old s) = saveHighScore old s :=
    sortDesc_of_sorted _
      ((sortDesc_pairwise (old ++ [s])).sublist (List.take_sublist 10 _))
  have h4 : (saveHighScore old s).take 10 = saveHighScore old s :=
    List.take_of_length_le (List.length_take_le 10 _)
  rw [afterSave, h1, h2, h3, h4]

/- ## Claim theorems -/

/-- Claim C3: `getPoints` returns exactly 0, 100, 300, 500, 800 for
clear counts 0–4, and fails fast (throws) on every other count instead
of returning or clamping. -/
theorem getPoints_table_spec :
    getPoints 0 = Except.ok 0 ∧
    getPoints 1 = Except.ok 100 ∧
    getPoints 2 = Except.ok 300 ∧
    getPoints 3 = Except.ok 500 ∧
    getPoints 4 = Except.ok 800 ∧
    (∀ n : Nat, 5 ≤ n → getPoints n = Except.error CommitError.unexpectedRowsCleared) := by
  refine ⟨rfl, rfl, rfl, rfl, rfl, ?_⟩
  intro n hn
  obtain ⟨m, rfl⟩ : ∃ m, n = m + 5 := ⟨n - 5, by omega⟩
  rfl

/-- Witness for C3 at the concrete out-of-range count 7. -/
theorem getPoints_table_spec_witness :
    5 ≤ 7 ∧ getPoints 7 = Except.error CommitError.unexpectedRowsCleared :=
  ⟨by decide, getPoints_table_spec.2.2.2.2.2 7 (by decide)⟩

/-- Claim C5: `getHighScores` never throws (it is a total function
here): absent storage, unparseable storage, and parsed values that are
not arrays of numbers all give `[]`; an array of numbers gives the
stored scores sorted descending and truncated to at most 10. -/
theorem getHighScores_total_spec :
    getHighScores Stored.absent = [] ∧
    (∀ raw, getHighScores (Stored.corrupt raw) = []) ∧
    (∀ v, asNumberArray v = none → getHighScores (Stored.json v) = []) ∧
    (∀ v xs, asNumberArray v = some xs →
      ∃ l, List.Perm l xs ∧ l.Pairwise (fun x y => y ≤ x) ∧
        getHighScores (Stored.json v) = l.take 10 ∧
        (getHighScores (Stored.json v)).length ≤ 10 ∧
        (getHighScores (Stored.json v)).Pairwise (fun x y => y ≤ x)) := by
  refine ⟨rfl, fun raw => rfl, ?_, ?_⟩
  · intro v h
    simp [getHighScores, h]
  · intro v xs h
    have hv : getHighScores (Stored.json v) = (sortDesc xs).take 10 := by
      simp [getHighScores, h]
    refine ⟨sortDesc xs, sortDesc_perm xs, sortDesc_pairwise xs, hv, ?_, ?_⟩
    · rw [hv]
      exact List.length_take_le 10 _
    · rw [hv]
      exact (sortDesc_pairwise xs).sublist (List.take_sublist 10 _)

/-- Witness for C5: a non-array value gives `[]`; a concrete stored
number array gives its descending-sorted prefix. -/
theorem getHighScores_total_spec_witness :
    asNumberArray JsonValue.null = none ∧
    getHighScores (Stored.json JsonValue.null) = [] ∧
    asNumberArray (jsonOfScores [2, 5, 1]) = some [2, 5, 1] ∧
    (∃ l, List.Perm l [2, 5, 1] ∧ l.Pairwise (fun x y => y ≤ x) ∧
      getHighScores (Stored.json (jsonOfScores [2, 5, 1])) = l.take 10 ∧
      (getHighScores (Stored.json (jsonOfScores [2, 5, 1]))).length ≤ 10 ∧
      (getHighScores (Stored.json (jsonOfScores [2, 5, 1]))).Pairwise (fun x y => y ≤ x)) :=
  ⟨rfl, getHighScores_total_spec.2.2.1 JsonValue.null rfl, rfl,
   getHighScores_total_spec.2.2.2 (jsonOfScores [2, 5, 1]) [2, 5, 1] rfl⟩

/-- Claim C6: with well-formed persisted scores `old`, after
`saveHighScore(s)` a `getHighScores` call returns a sequence containing
`s` whenever fewer than 10 saved scores exceed it, of length at most 10,
sorted non-increasing. -/
theorem saveThenGet_spec (old : List Int) (s : Int) :
    (old.countP (fun x => decide (s < x)) < 10 → s ∈ afterSave old s) ∧
    (afterSave old s).length ≤ 10 ∧
    (afterSave old s).Pairwise (fun x y => y ≤ x) := by
  have he : afterSave old s = saveHighScore old s := afterSave_eq old s
  refine ⟨?_, ?_, ?_⟩
  · intro hcount
    rw [he, saveHighScore]
    apply mem_take_of_few_above
    · exact sortDesc_pairwise _
    · exact ((sortDesc_perm (old ++ [s])).mem_iff).mpr (by simp)
    · have hperm := (sortDesc_perm (old ++ [s])).countP_eq (fun x => decide (s < x))
      rw [hperm, List.countP_append]
      have hs : List.countP (fun x => decide (s < x)) [s] = 0 := by simp
      omega
  · rw [he, saveHighScore]
    exact List.length_take_le 10 _
  · rw [he, saveHighScore]
    exact (sortDesc_pairwise _).sublist (List.take_sublist 10 _)

/-- Witness for C6 at `old = [20, 7]`, `s = 9`. -/
theorem saveThenGet_spec_witness :
    ([20, 7] : List Int).countP (fun x => decide ((9 : Int) < x)) < 10 ∧
    (9 : Int) ∈ afterSave [20, 7] 9 ∧
    (afterSave [20, 7] 9).length ≤ 10 ∧
    (afterSave [20, 7] 9).Pairwise (fun x y => y ≤ x) :=
  ⟨by decide, (saveThenGet_spec [20, 7] 9).1 (by decide),
   (saveThenGet_spec [20, 7] 9).2.1, (saveThenGet_spec [20, 7] 9).2.2⟩

/-- Claim C10: on a persisted value that is not valid JSON,
`saveHighScore` raises (the parse error propagates) and the persisted
value is unchanged, since `setItem` is never reached. -/
theorem saveHighScore_corrupt_raises (raw : Nat) (s : Int) :
    saveHighScoreRun (Stored.corrupt raw) s =
      (Except.error JsError.parseFailure, Stored.corrupt raw) := rfl

/-- Claim C2 (divergence witness): on the shape `[[false], [true]]` —
an all-false row above an occupied row — the source's filtered stamping
writes the occupied cell one row higher than the unfiltered stamping the
spec describes, so the two are not behavior-identical. -/
theorem addShapeToBoard_filter_divergence :
    addShapeToBoard [[Cell.empty], [Cell.empty]] Block.I [[false], [true]] 0 0 =
      [[Cell.filled Block.I], [Cell.empty]] ∧
    addShapeToBoardAllRows [[Cell.empty], [Cell.empty]] Block.I [[false], [true]] 0 0 =
      [[Cell.empty], [Cell.filled Block.I]] ∧
    addShapeToBoard [[Cell.empty], [Cell.empty]] Block.I [[false], [true]] 0 0 ≠
      addShapeToBoardAllRows [[Cell.empty], [Cell.empty]] Block.I [[false], [true]] 0 0 := by
  refine ⟨rfl, rfl, ?_⟩
  decide

/-- Claim C7: when the dropping piece can still legally fall one row,
`commitPosition` aborts — committing flag cleared, speed reset to
Normal, and board, piece, score and queue untouched (the result state is
`st` with only those two fields changed, and nothing is saved). -/
theorem commit_abort_spec (shapes : Block → List (List Bool)) (fresh : Block)
    (st : GameState)
    (h : hasCollisions st.board st.droppingShape (st.droppingRow + 1) st.droppingColumn = false) :
    commitPosition shapes fresh st =
      Except.ok ({ st with isCommitting := false, tickSpeed := some TickSpeed.normal }, none) :=
  commitPosition_early_eq shapes fresh st h

/-- A playing state whose piece floats over an empty board (it can still
fall): used to witness the abort branch. -/
def w7State : GameState :=
  { board := getEmptyBoard BOARD_HEIGHT
    droppingRow := 0
    droppingColumn := 3
    droppingBlock := Block.I
    droppingShape := [[true]]
    score := 150
    upcomingBlocks := [Block.I, Block.J, Block.L]
    isCommitting := true
    isPlaying := true
    tickSpeed := some TickSpeed.sliding }

/-- Witness for C7 at a concrete floating piece. -/
theorem commit_abort_spec_witness :
    hasCollisions w7State.board w7State.droppingShape (w7State.droppingRow + 1)
      w7State.droppingColumn = false ∧
    commitPosition (fun _ => [[true]]) Block.O w7State =
      Except.ok ({ w7State with isCommitting := false, tickSpeed := some TickSpeed.normal }, none) :=
  ⟨by decide, commit_abort_spec (fun _ => [[true]]) Block.O w7State (by decide)⟩

/-- Claim C4: a landed commit on a height-H board removes exactly the
full rows (counting one per full row, wherever they sit), and the board
passed to the commit action is the cleared board with that many all-Empty
rows prepended, so its height is again H. -/
theorem commit_clearing_spec (shapes : Block → List (List Bool)) (fresh : Block)
    (st st' : GameState) (saved : Option Nat)
    (hH : st.board.length = BOARD_HEIGHT)
    (hland : hasCollisions st.board st.droppingShape (st.droppingRow + 1) st.droppingColumn = true)
    (hok : commitPosition shapes fresh st = Except.ok (st', saved)) :
    (clearRows (stampedOf st)).1 = (stampedOf st).countP isFullRow ∧
    (clearRows (stampedOf st)).2 = (stampedOf st).filter (fun r => !(isFullRow r)) ∧
    st'.board = getEmptyBoard (clearRows (stampedOf st)).1 ++ (clearRows (stampedOf st)).2 ∧
    st'.board.length = BOARD_HEIGHT := by
  have hstamp : (stampedOf st).length = BOARD_HEIGHT := by
    rw [stampedOf, length_addShapeToBoard, hH]
  have hclear := clearRows_spec (stampedOf st) hstamp
  obtain ⟨newBlock, pts, hlast, hpts, hst', hsaved⟩ :=
    commitPosition_landed_inv shapes fresh st st' saved hland hok
  have hboard : st'.board = getEmptyBoard (clearRows (stampedOf st)).1 ++ (clearRows (stampedOf st)).2 := by
    rw [hst']
  refine ⟨by rw [hclear], by rw [hclear], hboard, ?_⟩
  rw [hboard, List.length_append, length_getEmptyBoard, hclear]
  have hsum := countP_add_length_filter_not (stampedOf st)
  simp only at hsum ⊢
  omega

/-- Claim C9: when a landed commit ends the game, the score handed to
`saveHighScore` is the score from before the final clear's points are
awarded; the points are added to the score state only afterwards. -/
theorem gameover_saves_preaward_score (shapes : Block → List (List Bool)) (fresh : Block)
    (st st' : GameState) (saved : Option Nat) (pts : Nat)
    (hplay : st.isPlaying = true)
    (hok : commitPosition shapes fresh st = Except.ok (st', saved))
    (hover : st'.isPlaying = false)
    (hpts : getPoints (clearRows (stampedOf st)).1 = Except.ok pts) :
    saved = some st.score ∧ st'.score = st.score + pts := by
  cases hland : hasCollisions st.board st.droppingShape (st.droppingRow + 1) st.droppingColumn with
  | false =>
    rw [commitPosition_early_eq shapes fresh st hland] at hok
    simp only [Except.ok.injEq, Prod.mk.injEq] at hok
    rw [← hok.1] at hover
    simp only at hover
    rw [hplay] at hover
    cases hover
  | true =>
    obtain ⟨newBlock, pts', hlast, hpts', hst', hsaved⟩ :=
      commitPosition_landed_inv shapes fresh st st' saved hland hok
    have hpp : pts' = pts := by
      rw [hpts'] at hpts
      cases hpts
      rfl
    subst hpp
    cases hgo : hasCollisions st.board (shapes newBlock) 0 3 with
    | false =>
      exfalso
      rw [hst'] at hover
      simp only [hgo, Bool.false_eq_true, if_false] at hover
      rw [hplay] at hover
      cases hover
    | true =>
      constructor
      · rw [hsaved, hgo]
        rfl
      · rw [hst']

/-- Claim C8: `startGame` seeds the queue with exactly three kinds; a
completed (landed) commit pops the consumed kind off the end of the
queue — it becomes the new dropping piece — and unshifts one fresh kind
onto the front, preserving the length; and this discipline consumes
kinds first-in-first-out: over any run, the consumed sequence is the
initial queue (end first) followed by the fresh kinds in push order. -/
theorem queue_invariant_spec :
    (∀ b1 b2 b3 k shapes st, (startGame b1 b2 b3 k shapes st).upcomingBlocks.length = 3) ∧
    (∀ shapes fresh st st' saved,
      hasCollisions st.board st.droppingShape (st.droppingRow + 1) st.droppingColumn = true →
      commitPosition shapes fresh st = Except.ok (st', saved) →
      st.upcomingBlocks.getLast? = some st'.droppingBlock ∧
      st'.upcomingBlocks = fresh :: st.upcomingBlocks.dropLast ∧
      st'.upcomingBlocks.length = st.upcomingBlocks.length) ∧
    (∀ (q fs : List Block), q ≠ [] →
      consumeSeq q fs = (q.reverse ++ fs).take fs.length) := by
  refine ⟨fun b1 b2 b3 k shapes st => rfl, ?_, ?_⟩
  · intro shapes fresh st st' saved hland hok
    obtain ⟨newBlock, pts, hlast, hpts, hst', hsaved⟩ :=
      commitPosition_landed_inv shapes fresh st st' saved hland hok
    have hblock : st'.droppingBlock = newBlock := by rw [hst']
    have hqueue : st'.upcomingBlocks = fresh :: st.upcomingBlocks.dropLast := by rw [hst']
    have hne : st.upcomingBlocks ≠ [] := by
      intro h0
      rw [h0] at hlast
      cases hlast
    refine ⟨by rw [hblock]; exact hlast, hqueue, ?_⟩
    rw [hqueue]
    have hpos : 0 < st.upcomingBlocks.length := List.length_pos.mpr hne
    simp only [List.length_cons, List.length_dropLast]
    omega
  · intro q fs
    induction fs generalizing q with
    | nil => intro hq; simp [consumeSeq]
    | cons f fs ih =>
      intro hq
      rcases List.eq_nil_or_concat q with rfl | ⟨L, b, rfl⟩
      · exact absurd rfl hq
      · rw [List.concat_eq_append]
        have hlast : (L ++ [b]).getLast? = some b := by simp
        have hdrop : (L ++ [b]).dropLast = L := by simp
        simp only [consumeSeq, hlast, hdrop]
        have hne : (f :: L) ≠ [] := by simp
        rw [ih (f :: L) hne]
        simp only [List.reverse_append, List.reverse_cons, List.reverse_nil,
          List.nil_append, List.singleton_append, List.length_cons, List.take_succ_cons,
          List.cons_append, List.append_assoc]

/-- The landed state used to exercise the completed-commit branch: a
1-cell piece at spawn, blocked from falling by a filled cell at (1,3). -/
def c1Board : Board :=
  (List.range BOARD_HEIGHT).map (fun r =>
    (List.range BOARD_WIDTH).map (fun c =>
      if r = 1 ∧ c = 3 then Cell.filled Block.J else Cell.empty))

/-- Every spawn shape is the single occupied cell. -/
def c1Shapes : Block → List (List Bool) := fun _ => [[true]]

/-- The game state right before the commit of the landed 1-cell piece at
(0,3) on `c1Board`. -/
def c1State : GameState :=
  { board := c1Board
    droppingRow := 0
    droppingColumn := 3
    droppingBlock := Block.I
    droppingShape := [[true]]
    score := 42
    upcomingBlocks := [Block.I, Block.I, Block.I]
    isCommitting := true
    isPlaying := true
    tickSpeed := some TickSpeed.sliding }

/-- The state and saved score `commitPosition` produces on `c1State`. -/
def w8Pair : GameState × Option Nat :=
  (commitPosition c1Shapes Block.O c1State).toOption.getD (c1State, none)

/-- Witness for C8: the start queue, one concrete completed commit, and
one concrete consumption run. -/
theorem queue_invariant_spec_witness :
    (startGame Block.I Block.J Block.L Block.O c1Shapes c1State).upcomingBlocks.length = 3 ∧
    (c1State.upcomingBlocks.getLast? = some w8Pair.1.droppingBlock ∧
     w8Pair.1.upcomingBlocks = Block.O :: c1State.upcomingBlocks.dropLast ∧
     w8Pair.1.upcomingBlocks.length = c1State.upcomingBlocks.length) ∧
    consumeSeq [Block.I, Block.J] [Block.O] =
      (([Block.I, Block.J] : List Block).reverse ++ [Block.O]).take 1 :=
  ⟨queue_invariant_spec.1 Block.I Block.J Block.L Block.O c1Shapes c1State,
   queue_invariant_spec.2.1 c1Shapes Block.O c1State w8Pair.1 w8Pair.2 (by decide) rfl,
   queue_invariant_spec.2.2 [Block.I, Block.J] [Block.O] (by decide)⟩

/-- Claim C1 (divergence witness): on `c1State` the new piece's spawn
shape collides at (0, 3) against the already-line-cleared board but not
against the pre-commit board; `commitPosition` runs its game-over check
against the pre-commit board (`useTetris.ts` line 196), so it keeps
playing at Normal speed and persists nothing, where the claim requires
the game to end. -/
theorem gameOverCheck_divergence :
    hasCollisions (postClearBoard c1State) (c1Shapes Block.I) 0 3 = true ∧
    hasCollisions c1State.board (c1Shapes Block.I) 0 3 = false ∧
    (commitPosition c1Shapes Block.O c1State).toOption.map
        (fun p => (p.1.isPlaying, p.1.tickSpeed, p.2)) =
      some (true, some TickSpeed.normal, none) := by
  refine ⟨by decide, by decide, by decide⟩

/-- A board whose only filled cell is the spawn cell (0, 3). -/
def c9Board : Board :=
  (List.range BOARD_HEIGHT).map (fun r =>
    (List.range BOARD_WIDTH).map (fun c =>
      if r = 0 ∧ c = 3 then Cell.filled Block.J else Cell.empty))

/-- A landed, game-over-bound state: a 1-cell piece resting on the
bottom row while the spawn cell is already occupied. -/
def c9State : GameState :=
  { board := c9Board
    droppingRow := 19
    droppingColumn := 0
    droppingBlock := Block.I
    droppingShape := [[true]]
    score := 42
    upcomingBlocks := [Block.I, Block.I, Block.I]
    isCommitting := true
    isPlaying := true
    tickSpeed := some TickSpeed.sliding }

/-- The state and saved score `commitPosition` produces on `c9State`. -/
def c9Pair : GameState × Option Nat :=
  (commitPosition c1Shapes Block.O c9State).toOption.getD (c9State, none)

/-- Witness for C9 at the concrete game-over commit on `c9State`. -/
theorem gameover_saves_preaward_score_witness :
    c9State.isPlaying = true ∧
    c9Pair.1.isPlaying = false ∧
    getPoints (clearRows (stampedOf c9State)).1 = Except.ok 0 ∧
    c9Pair.2 = some c9State.score ∧
    c9Pair.1.score = c9State.score + 0 :=
  ⟨rfl, by decide, rfl,
   (gameover_saves_preaward_score c1Shapes Block.O c9State c9Pair.1 c9Pair.2 0
     rfl rfl (by decide) rfl).1,
   (gameover_saves_preaward_score c1Shapes Block.O c9State c9Pair.1 c9Pair.2 0
     rfl rfl (by decide) rfl).2⟩

/-- Witness for C4 at the concrete landed commit on `c9State`. -/
theorem commit_clearing_spec_witness :
    c9State.board.length = BOARD_HEIGHT ∧
    hasCollisions c9State.board c9State.droppingShape (c9State.droppingRow + 1)
      c9State.droppingColumn = true ∧
    ((clearRows (stampedOf c9State)).1 = (stampedOf c9State).countP isFullRow ∧
     (clearRows (stampedOf c9State)).2 = (stampedOf c9State).filter (fun r => !(isFullRow r)) ∧
     c9Pair.1.board = getEmptyBoard (clearRows (stampedOf c9State)).1 ++
       (clearRows (stampedOf c9State)).2 ∧
     c9Pair.1.board.length = BOARD_HEIGHT) :=
  ⟨by decide, by decide,
   commit_clearing_spec c1Shapes Block.O c9State c9Pair.1 c9Pair.2
     (by decide) (by decide) rfl⟩
